import Mathlib

/-!
Verification of the streaming session manager of the `algorithms-trading`
repository (Rust): the message dispatcher, the output-sink abstraction
(plain / JSON / CSV formats, console and file destinations), the
environment-driven symbol configuration, and the reconnect supervisor
with exponential backoff.

The Rust sources embedded here are `src/lib.rs` (sink, dispatch, config)
and `src/main.rs` (supervisor loop).  External collaborators (the Alpaca
transport crate, `serde_json`, `chrono`, `csv`) are modelled at their
interface boundary:
  * `serde_json::Value` is modelled by the inductive `Json` below, with
    numbers restricted to exact integers (machine floats are outside the
    embedding); its compact printer and parser are modelled by `renderJson`
    / `parseJson`, faithful to serde's compact output grammar (no extra
    whitespace, `"`/`\`/control-character escaping).
  * `chrono::DateTime<Utc>` is modelled by the civil-field record
    `DateTime`; the two format strings used by the code are reproduced
    character by character.
  * the transport crate's `StreamingMessage` / `StreamingTrade` /
    `StreamingQuote` / `StreamingBar` types and their serde codecs are
    modelled by the `Codecs` parameter: the dispatcher is verified for
    every possible behaviour of those codecs.
-/

/-- Model of `serde_json::Value`.  Numbers are exact integers: the claims
proved below never depend on float payloads, and serde's float formatting
is outside the embedding. -/
inductive Json where
  | null
  | bool (b : Bool)
  | num (n : Int)
  | str (s : String)
  | arr (elems : List Json)
  | obj (fields : List (String × Json))

/-- Decimal digit character for `n % 10`. -/
def digitChar (n : Nat) : Char := Char.ofNat (48 + n % 10)

/-- Decimal digits of `n`, most significant first. -/
def natChars (n : Nat) : List Char :=
  if n < 10 then [digitChar n] else natChars (n / 10) ++ [digitChar n]
termination_by n
decreasing_by
  simp_wf
  omega

/-- Decimal rendering of an integer: optional minus sign, then digits. -/
def intChars (i : Int) : List Char :=
  if i < 0 then '-' :: natChars i.natAbs else natChars i.natAbs

/-- Lower-case hexadecimal digit character, as emitted by serde's
`\u00XX` control-character escapes. -/
def hexDigitChar (n : Nat) : Char :=
  if n < 10 then Char.ofNat (48 + n) else Char.ofNat (87 + n)

/-- One string character, JSON-escaped exactly as `serde_json` escapes it:
quote and backslash get two-character escapes, the five named control
characters get theirs, every other control character becomes `\u00XX`,
anything else is passed through. -/
def escChar (c : Char) : List Char :=
  if c = '"' then ['\\', '"']
  else if c = '\\' then ['\\', '\\']
  else if c = Char.ofNat 8 then ['\\', 'b']
  else if c = '\t' then ['\\', 't']
  else if c = '\n' then ['\\', 'n']
  else if c = Char.ofNat 12 then ['\\', 'f']
  else if c = '\r' then ['\\', 'r']
  else if c.toNat < 32 then
    ['\\', 'u', '0', '0', hexDigitChar (c.toNat / 16), hexDigitChar (c.toNat % 16)]
  else [c]

/-- JSON-escape a whole character list. -/
def escList : List Char → List Char
  | [] => []
  | c :: cs => escChar c ++ escList cs

/-- Rendered JSON string: opening quote, escaped body, closing quote. -/
def strChars (s : String) : List Char :=
  '"' :: (escList s.data ++ ['"'])

mutual
/-- Compact rendering of a `Json` value, as `serde_json::to_string` /
`Value::to_string` produce it (no whitespace between tokens). -/
def renderJ : Json → List Char
  | .num i => intChars i
  | .str s => strChars s
  | .null => 'n' :: ['u', 'l', 'l']
  | .bool true => 't' :: ['r', 'u', 'e']
  | .bool false => 'f' :: ['a', 'l', 's', 'e']
  | .arr es => '[' :: (renderArr es ++ [']'])
  | .obj fs => '{' :: (renderObj fs ++ ['}'])
/-- Comma-separated renderings of the elements of an array. -/
def renderArr : List Json → List Char
  | [] => []
  | e :: es => renderJ e ++ renderArrRest es
/-- Continuation of `renderArr`: a comma before every further element. -/
def renderArrRest : List Json → List Char
  | [] => []
  | e :: es => ',' :: (renderJ e ++ renderArrRest es)
/-- Comma-separated `"key":value` renderings of an object's fields. -/
def renderObj : List (String × Json) → List Char
  | [] => []
  | (k, v) :: fs => strChars k ++ ':' :: (renderJ v ++ renderObjRest fs)
/-- Continuation of `renderObj`: a comma before every further field. -/
def renderObjRest : List (String × Json) → List Char
  | [] => []
  | (k, v) :: fs => ',' :: (strChars k ++ ':' :: (renderJ v ++ renderObjRest fs))
end

/-- Model of `serde_json::to_string` on a `Value`. -/
def renderJson (j : Json) : String := String.mk (renderJ j)

/-- Decimal digit test on characters. -/
def isDig (c : Char) : Bool := 48 ≤ c.toNat && c.toNat ≤ 57

/-- Numeric value of a decimal digit character. -/
def digitVal (c : Char) : Nat := c.toNat - 48

/-- Split a leading run of decimal digits off the input. -/
def grabDigits : List Char → List Char × List Char
  | [] => ([], [])
  | c :: cs =>
    if isDig c then
      let p := grabDigits cs
      (c :: p.1, p.2)
    else ([], c :: cs)

/-- Value of a digit run, most significant first. -/
def digitsNat (ds : List Char) : Nat :=
  ds.foldl (fun a c => a * 10 + digitVal c) 0

/-- Parse a JSON integer: optional minus sign, then at least one digit. -/
def parseInt (cs : List Char) : Option (Int × List Char) :=
  match cs with
  | '-' :: cs1 =>
    let p := grabDigits cs1
    if p.1.isEmpty then none else some (-(digitsNat p.1 : Int), p.2)
  | _ =>
    let p := grabDigits cs
    if p.1.isEmpty then none else some ((digitsNat p.1 : Int), p.2)

/-- Value of one hexadecimal digit character, if it is one. -/
def hexVal (c : Char) : Option Nat :=
  if 48 ≤ c.toNat && c.toNat ≤ 57 then some (c.toNat - 48)
  else if 97 ≤ c.toNat && c.toNat ≤ 102 then some (c.toNat - 87)
  else if 65 ≤ c.toNat && c.toNat ≤ 70 then some (c.toNat - 55)
  else none

/-- Inverse of the two-character escapes. -/
def unesc : Char → Option Char
  | 'n' => some '\n'
  | 't' => some '\t'
  | 'r' => some '\r'
  | 'b' => some (Char.ofNat 8)
  | 'f' => some (Char.ofNat 12)
  | '"' => some '"'
  | '\\' => some '\\'
  | '/' => some '/'
  | _ => none

/-- Read a JSON string body after the opening quote: returns the unescaped
content and the input after the closing quote. -/
def readStr : List Char → Option (List Char × List Char)
  | '"' :: rest => some ([], rest)
  | '\\' :: 'u' :: a :: b :: c :: d :: rest =>
    match hexVal a, hexVal b, hexVal c, hexVal d with
    | some va, some vb, some vc, some vd =>
      (readStr rest).map (fun p => (Char.ofNat (((va * 16 + vb) * 16 + vc) * 16 + vd) :: p.1, p.2))
    | _, _, _, _ => none
  | '\\' :: e :: rest =>
    match unesc e with
    | some ch => (readStr rest).map (fun p => (ch :: p.1, p.2))
    | none => none
  | c :: rest => (readStr rest).map (fun p => (c :: p.1, p.2))
  | [] => none

/-- Strip an expected literal character sequence off the input. -/
def stripLit : List Char → List Char → Option (List Char)
  | [], cs => some cs
  | e :: es, c :: cs => if c = e then stripLit es cs else none
  | _ :: _, [] => none

mutual
/-- Fueled JSON value parser over the compact grammar the renderer emits
(no inter-token whitespace; serde's compact printer emits none).  The
fuel decreases on every recursive call, so `input length + 1` always
suffices. -/
def parseJ : Nat → List Char → Option (Json × List Char)
  | 0, _ => none
  | _ + 1, [] => none
  | fuel + 1, c :: r =>
    if c = 'n' then (stripLit ['u', 'l', 'l'] r).map (fun r2 => (Json.null, r2))
    else if c = 't' then (stripLit ['r', 'u', 'e'] r).map (fun r2 => (Json.bool true, r2))
    else if c = 'f' then
      (stripLit ['a', 'l', 's', 'e'] r).map (fun r2 => (Json.bool false, r2))
    else if c = '"' then (readStr r).map (fun p => (Json.str (String.mk p.1), p.2))
    else if c = '[' then
      match r with
      | ']' :: r2 => some (Json.arr [], r2)
      | _ => (parseArr fuel r).map (fun p => (Json.arr p.1, p.2))
    else if c = '{' then
      match r with
      | '}' :: r2 => some (Json.obj [], r2)
      | _ => (parseObj fuel r).map (fun p => (Json.obj p.1, p.2))
    else (parseInt (c :: r)).map (fun p => (Json.num p.1, p.2))
/-- Parse the comma-separated elements of a nonempty array, through the
closing bracket. -/
def parseArr : Nat → List Char → Option (List Json × List Char)
  | 0, _ => none
  | fuel + 1, cs =>
    match parseJ fuel cs with
    | none => none
    | some (v, r) =>
      match r with
      | ']' :: r2 => some ([v], r2)
      | ',' :: r2 => (parseArr fuel r2).map (fun p => (v :: p.1, p.2))
      | _ => none
/-- Parse the comma-separated fields of a nonempty object, through the
closing brace. -/
def parseObj : Nat → List Char → Option (List (String × Json) × List Char)
  | 0, _ => none
  | fuel + 1, cs =>
    match cs with
    | '"' :: r =>
      match readStr r with
      | none => none
      | some (k, r1) =>
        match r1 with
        | ':' :: r2 =>
          match parseJ fuel r2 with
          | none => none
          | some (v, r3) =>
            match r3 with
            | '}' :: r4 => some ([(String.mk k, v)], r4)
            | ',' :: r4 => (parseObj fuel r4).map (fun p => ((String.mk k, v) :: p.1, p.2))
            | _ => none
        | _ => none
    | _ => none
end

/-- Model of `serde_json::from_str::<Value>` restricted to the grammar the
compact printer emits: the whole line must parse with nothing left over. -/
def parseJson (s : String) : Option Json :=
  match parseJ (s.data.length + 1) s.data with
  | some (j, []) => some j
  | _ => none

/-- Model of a `chrono::DateTime<Utc>` instant by its civil UTC fields,
at millisecond precision (the finest the code's format strings print). -/
structure DateTime where
  year : Nat
  month : Nat
  day : Nat
  hour : Nat
  minute : Nat
  second : Nat
  millisecond : Nat

/-- Zero-pad to two digits, as chrono's `%m`, `%d`, `%H`, `%M`, `%S` do. -/
def pad2 (n : Nat) : List Char :=
  if n < 10 then '0' :: natChars n else natChars n

/-- Zero-pad to three digits, as chrono's `%.3f` fraction does. -/
def pad3 (n : Nat) : List Char :=
  if n < 10 then '0' :: '0' :: natChars n
  else if n < 100 then '0' :: natChars n
  else natChars n

/-- Zero-pad to four digits, as chrono's `%Y` does. -/
def pad4 (n : Nat) : List Char :=
  if n < 10 then '0' :: '0' :: '0' :: natChars n
  else if n < 100 then '0' :: '0' :: natChars n
  else if n < 1000 then '0' :: natChars n
  else natChars n

/-- Characters of `timestamp.format("%Y-%m-%d %H:%M:%S%.3f UTC")`, the
layout both CSV paths print. -/
def format_timestamp_chars (t : DateTime) : List Char :=
  pad4 t.year ++ '-' :: (pad2 t.month ++ '-' :: (pad2 t.day ++ ' ' ::
    (pad2 t.hour ++ ':' :: (pad2 t.minute ++ ':' :: (pad2 t.second ++ '.' ::
      (pad3 t.millisecond ++ [' ', 'U', 'T', 'C']))))))

/-- The fixed `YYYY-MM-DD HH:MM:SS.mmm UTC` timestamp rendering. -/
def format_timestamp (t : DateTime) : String := String.mk (format_timestamp_chars t)

/-- RFC 3339 rendering of the instant, as chrono's serde support
serializes a `DateTime<Utc>` (modelled at millisecond precision). -/
def format_rfc3339 (t : DateTime) : String :=
  String.mk (pad4 t.year ++ '-' :: (pad2 t.month ++ '-' :: (pad2 t.day ++ 'T' ::
    (pad2 t.hour ++ ':' :: (pad2 t.minute ++ ':' :: (pad2 t.second ++ '.' ::
      (pad3 t.millisecond ++ ['Z'])))))))

/-- Scalar encoding of the civil fields, chronologically monotone for
in-range field values; used only to transfer an ordering of clock
readings to an ordering of emitted timestamps. -/
def DateTime.code (t : DateTime) : Nat :=
  (((((t.year * 13 + t.month) * 32 + t.day) * 25 + t.hour) * 61 + t.minute) * 61 + t.second)
    * 1000 + t.millisecond

/-- The `DataFormat` CLI enum of `lib.rs`. -/
inductive DataFormat where
  | Plain
  | Json
  | Csv

/-- Destination half of the `OutputMode` enum: a console sink or a file
sink (whose CSV record writer is present exactly when the format is CSV,
as `create_file_mode` builds it). -/
inductive OutputModeM where
  | console (format : DataFormat)
  | file (format : DataFormat)

/-- One observable write performed by a sink: raw text through a handle,
or a structured record through the CSV record writer. -/
inductive Emitted where
  | text (s : String)
  | record (fields : List String)

/-- The `StreamingData` record of `lib.rs` (the NormalizedEvent of the
specification). -/
structure StreamingData where
  timestamp : DateTime
  message_type : String
  symbol : Option String
  data : Json

/-- Model of `str::replace(",", ";")` (a single-character pattern, so a
character map). -/
def replace_commas (s : String) : String :=
  String.mk (s.data.map (fun c => if c = ',' then ';' else c))

/-- The `format_csv_line` helper: the console CSV rendering, with every
comma inside the payload text replaced by `;`. -/
def format_csv_line (d : StreamingData) : String :=
  format_timestamp d.timestamp ++ "," ++ d.message_type ++ ","
    ++ (d.symbol.getD "") ++ "," ++ replace_commas (renderJson d.data)

/-- The four fields `write_csv_record` hands to the CSV record writer;
the payload text is passed through unmodified. -/
def write_csv_record (d : StreamingData) : List String :=
  [format_timestamp d.timestamp, d.message_type, d.symbol.getD "", renderJson d.data]

/-- The CSV header record written by `create_file_mode`. -/
def csv_header : List String := ["timestamp", "message_type", "symbol", "data"]

/-- Records the CSV record writer holds right after `create_file_mode`:
the header exactly when not appending (the truncating open makes the
destination empty first). -/
def create_file_mode_csv (append : Bool) : List (List String) :=
  if append then [] else [csv_header]

/-- Records written through a CSV-format file sink over its lifetime:
construction, then one record per accepted event. -/
def file_csv_records (append : Bool) (ds : List StreamingData) : List (List String) :=
  create_file_mode_csv append ++ ds.map write_csv_record

/-- Serde's serialization of `StreamingData` as a JSON value: the derive
lists the fields in declaration order; `Option` serializes `None` as
`null`; the instant becomes its RFC 3339 string. -/
def streamingDataToJson (d : StreamingData) : Json :=
  Json.obj [("timestamp", Json.str (format_rfc3339 d.timestamp)),
            ("message_type", Json.str d.message_type),
            ("symbol", match d.symbol with | none => Json.null | some s => Json.str s),
            ("data", d.data)]

/-- First field with the given key, as a deserializer visits an object. -/
def lookup_field : List (String × Json) → String → Option Json
  | [], _ => none
  | (k, v) :: fs, key => if k = key then some v else lookup_field fs key

/-- Deserialize the `symbol` and `data` fields of a parsed
`StreamingData` line (the two fields the round-trip claim compares). -/
def decode_symbol_data (j : Json) : Option (Option String × Json) :=
  match j with
  | Json.obj fs =>
    match lookup_field fs "symbol", lookup_field fs "data" with
    | some sj, some dj =>
      match sj with
      | Json.null => some (none, dj)
      | Json.str s => some (some s, dj)
      | _ => none
    | _, _ => none
  | _ => none

/-- The `OutputMode::write` method: one raw text write to the
destination (both destinations write the string verbatim). -/
def OutputModeM.write (_ : OutputModeM) (s : String) : List Emitted :=
  [Emitted.text s]

/-- The `OutputMode::writeln` method: `write` of the message plus a
newline. -/
def OutputModeM.writeln (m : OutputModeM) (s : String) : List Emitted :=
  m.write (s ++ "\n")

/-- The `OutputMode::write_streaming_data` method, by destination and
format.  The plain rendering (`format_plain`) formats floating-point
payload fields, which are outside the embedding, so it is a parameter
`pr`; no claim below depends on it. -/
def write_streaming_data (pr : StreamingData → String) :
    OutputModeM → StreamingData → List Emitted
  | OutputModeM.console f, d =>
    match f with
    | DataFormat.Plain => (OutputModeM.console f).writeln (pr d)
    | DataFormat.Json => (OutputModeM.console f).writeln (renderJson (streamingDataToJson d))
    | DataFormat.Csv => (OutputModeM.console f).writeln (format_csv_line d)
  | OutputModeM.file f, d =>
    match f with
    | DataFormat.Plain => [Emitted.text (pr d ++ "\n")]
    | DataFormat.Json => [Emitted.text (renderJson (streamingDataToJson d) ++ "\n")]
    | DataFormat.Csv => [Emitted.record (write_csv_record d)]

/-- The transport crate's `StreamingTrade` payload, at the interface the
dispatcher uses: the only field `handle_trade_message` reads is the
symbol. -/
structure StreamingTrade where
  symbol : String

/-- The transport crate's `StreamingQuote` payload (symbol field only,
as read by `handle_quote_message`). -/
structure StreamingQuote where
  symbol : String

/-- The transport crate's `StreamingBar` payload (symbol field only, as
read by `handle_bar_message`). -/
structure StreamingBar where
  symbol : String

/-- The transport crate's inbound `StreamingMessage`: the type tag the
dispatcher matches on, the optional human-readable `message` field the
success / subscription / error handlers read, and the raw `data` payload
the unknown handler passes through. -/
structure StreamingMessage where
  message_type : String
  message : Option String
  data : Json

/-- The serde codecs of the transport crate, at the interface boundary:
`toValue` is `serde_json::to_value` on the whole message, the three
decoders are `serde_json::from_value` into the tag-specific payload
shapes.  The dispatcher theorems hold for every behaviour of these. -/
structure Codecs where
  toValue : StreamingMessage → Json
  decodeTrade : Json → Option StreamingTrade
  decodeQuote : Json → Option StreamingQuote
  decodeBar : Json → Option StreamingBar

/-- Outcome of `write_streaming_data` on the sink for a given event:
`none` means the write (and flush) succeeded, `some e` an I/O error. -/
abbrev Sink := StreamingData → Option String

/-- One `output_mode.write_streaming_data(&data)?` call site: the event
is handed to the sink; a sink failure becomes the handler's early
`Err` return (the `?` operator). -/
def writeAttempt (sink : Sink) (d : StreamingData) :
    List StreamingData × Except String Unit :=
  ([d], match sink d with
        | none => Except.ok ()
        | some e => Except.error e)

/-- The `handle_trade_message` handler: serialize the message, try the
trade shape; on success emit a `t` event carrying the trade's symbol; on
decode failure print a diagnostic (not modelled) and return `Ok`. -/
def handle_trade_message (c : Codecs) (sink : Sink) (now : DateTime)
    (msg : StreamingMessage) : List StreamingData × Except String Unit :=
  let mj := c.toValue msg
  match c.decodeTrade mj with
  | some trade => writeAttempt sink ⟨now, "t", some trade.symbol, mj⟩
  | none => ([], Except.ok ())

/-- The `handle_quote_message` handler (as the trade one, for `q`). -/
def handle_quote_message (c : Codecs) (sink : Sink) (now : DateTime)
    (msg : StreamingMessage) : List StreamingData × Except String Unit :=
  let mj := c.toValue msg
  match c.decodeQuote mj with
  | some quote => writeAttempt sink ⟨now, "q", some quote.symbol, mj⟩
  | none => ([], Except.ok ())

/-- The `handle_bar_message` handler (as the trade one, for `b`). -/
def handle_bar_message (c : Codecs) (sink : Sink) (now : DateTime)
    (msg : StreamingMessage) : List StreamingData × Except String Unit :=
  let mj := c.toValue msg
  match c.decodeBar mj with
  | some bar => writeAttempt sink ⟨now, "b", some bar.symbol, mj⟩
  | none => ([], Except.ok ())

/-- The `handle_success_message` handler: emit the human-readable
message as a string payload with no symbol, or nothing if absent. -/
def handle_success_message (_ : Codecs) (sink : Sink) (now : DateTime)
    (msg : StreamingMessage) : List StreamingData × Except String Unit :=
  match msg.message with
  | some m => writeAttempt sink ⟨now, "success", none, Json.str m⟩
  | none => ([], Except.ok ())

/-- The `handle_subscription_message` handler (as the success one). -/
def handle_subscription_message (_ : Codecs) (sink : Sink) (now : DateTime)
    (msg : StreamingMessage) : List StreamingData × Except String Unit :=
  match msg.message with
  | some m => writeAttempt sink ⟨now, "subscription", none, Json.str m⟩
  | none => ([], Except.ok ())

/-- The `handle_error_message` handler (as the success one). -/
def handle_error_message (_ : Codecs) (sink : Sink) (now : DateTime)
    (msg : StreamingMessage) : List StreamingData × Except String Unit :=
  match msg.message with
  | some m => writeAttempt sink ⟨now, "error", none, Json.str m⟩
  | none => ([], Except.ok ())

/-- The `handle_unknown_message` handler: pass the raw payload through
with the original tag and no symbol. -/
def handle_unknown_message (_ : Codecs) (sink : Sink) (now : DateTime)
    (msg : StreamingMessage) : List StreamingData × Except String Unit :=
  writeAttempt sink ⟨now, msg.message_type, none, msg.data⟩

/-- The `process_streaming_message` dispatcher: route by the message's
type tag.  `now` is the `Utc::now()` clock reading the handlers take at
dispatch time; the first component collects the events handed to the
sink, the second is the function's `Result`. -/
def process_streaming_message (c : Codecs) (sink : Sink) (now : DateTime)
    (msg : StreamingMessage) : List StreamingData × Except String Unit :=
  if msg.message_type = "t" then handle_trade_message c sink now msg
  else if msg.message_type = "q" then handle_quote_message c sink now msg
  else if msg.message_type = "b" then handle_bar_message c sink now msg
  else if msg.message_type = "success" then handle_success_message c sink now msg
  else if msg.message_type = "subscription" then handle_subscription_message c sink now msg
  else if msg.message_type = "error" then handle_error_message c sink now msg
  else handle_unknown_message c sink now msg

/-- Model of Rust's `str::split(',')`: pieces between commas, in order;
the empty string yields one empty piece. -/
def splitComma : List Char → List (List Char)
  | [] => [[]]
  | c :: cs =>
    if c = ',' then [] :: splitComma cs
    else match splitComma cs with
      | [] => [[c]]
      | p :: ps => (c :: p) :: ps

/-- Whitespace test for `str::trim` (the ASCII whitespace characters;
the symbol lists are ASCII). -/
def isWsChar (c : Char) : Bool := c = ' ' || c = '\t' || c = '\n' || c = '\r'

/-- Drop leading whitespace. -/
def dropWs : List Char → List Char
  | [] => []
  | c :: cs => if isWsChar c then dropWs cs else c :: cs

/-- Model of `str::trim`: drop whitespace from both ends. -/
def trimChars (cs : List Char) : List Char := dropWs (dropWs cs.reverse).reverse

/-- Model of `str::to_uppercase` on one character (ASCII; the symbol
lists are ASCII). -/
def upChar (c : Char) : Char :=
  if 97 ≤ c.toNat && c.toNat ≤ 122 then Char.ofNat (c.toNat - 32) else c

/-- The `get_symbols_from_env` helper.  `envVal` is the environment
variable's value (`none` when unset); set values are split on commas and
each piece trimmed and uppercased. -/
def get_symbols_from_env (envVal : Option String) (default : List String) : List String :=
  match envVal with
  | some symbols => (splitComma symbols.data).map (fun p => String.mk ((trimChars p).map upChar))
  | none => default

/-- The backoff computation of `main.rs`:
`Duration::from_secs(2_u64.pow(retry_count.min(6)))` (the value stays at
most `64`, so the `u64` power cannot overflow). -/
def backoff_secs (retry_count : Nat) : Nat := 2 ^ min retry_count 6

/-- How the supervisor's `loop` ends: `ok n` models `break` and process
exit status 0 after `n` session attempts; `err n e` models the
`?`-propagated or explicit `return Err(e)` (non-zero exit surfacing
`e`) after `n` attempts. -/
inductive SessionExit where
  | ok (attempts : Nat)
  | err (attempts : Nat) (e : String)

/-- The supervisor loop of `main.rs`, from a current failure count
`retryCount`.  `runs i` is the outcome of the session attempt made with
`retry_count = i` (`none` = clean return, `some e` = error `e`).  The
loop body also performs at most one `config.output_mode.writeln(...)?`
of its own per iteration — the completion message before `break` on the
clean branch, the retry message before `sleep` on the retried-failure
branch — and either one raises out of `main` on a sink failure; `wr i`
is the outcome of that write at attempt `i` (`none` = ok, `some w` =
I/O error `w`).  The result collects the backoff delays slept (in
seconds, in order; none is slept when the retry write fails) and the
loop's exit. -/
def supervisorLoop (runs wr : Nat → Option String) (maxRetries : Nat)
    (retryCount : Nat) : List Nat × SessionExit :=
  match runs retryCount with
  | none =>
    match wr retryCount with
    | none => ([], SessionExit.ok (retryCount + 1))
    | some w => ([], SessionExit.err (retryCount + 1) w)
  | some e =>
    if _h : maxRetries ≤ retryCount + 1 then ([], SessionExit.err (retryCount + 1) e)
    else
      match wr retryCount with
      | some w => ([], SessionExit.err (retryCount + 1) w)
      | none =>
        let rest := supervisorLoop runs wr maxRetries (retryCount + 1)
        (backoff_secs (retryCount + 1) :: rest.1, rest.2)
termination_by maxRetries - retryCount
decreasing_by
  simp_wf
  omega


/-- A remainder that cannot extend a parsed integer: empty, or starting
with a non-digit.  Every delimiter that can follow a rendered value
(`,`, `]`, `}`, end of line) qualifies. -/
def numDelim : List Char → Bool
  | [] => true
  | c :: _ => !isDig c

/-! ## Theorems -/

/-- Every event a handler hands to the sink carries the dispatch-time
clock reading as its timestamp. -/
theorem mem_dispatch_timestamp (c : Codecs) (sink : Sink) (now : DateTime)
    (msg : StreamingMessage) :
    ∀ d ∈ (process_streaming_message c sink now msg).1, d.timestamp = now := by
  intro d hd
  simp only [process_streaming_message] at hd
  split_ifs at hd <;>
    simp only [handle_trade_message, handle_quote_message, handle_bar_message,
      handle_success_message, handle_subscription_message, handle_error_message,
      handle_unknown_message, writeAttempt] at hd <;>
    (repeat' split at hd) <;>
    simp only [List.mem_singleton, List.not_mem_nil] at hd <;>
    first
      | exact absurd hd (by simp)
      | (subst hd; rfl)

/-- C4: for every 1-indexed failed attempt `k`, the backoff delay the
supervisor computes is `min(2^k, 2^6) = min(2^k, 64)` seconds: `2^k`
seconds while `k ≤ 6` and `64` seconds for every `k > 6`. -/
theorem backoff_formula (k : Nat) (hk : 1 ≤ k) :
    backoff_secs k = min (2 ^ k) 64 ∧
    (k ≤ 6 → backoff_secs k = 2 ^ k) ∧
    (6 < k → backoff_secs k = 64) := by
  have h64 : (64 : Nat) = 2 ^ 6 := by norm_num
  by_cases h : k ≤ 6
  · have hmin : min k 6 = k := Nat.min_eq_left h
    have hpow : 2 ^ k ≤ 2 ^ 6 := Nat.pow_le_pow_right (by norm_num) h
    refine ⟨?_, fun _ => by rw [backoff_secs, hmin], fun h6 => absurd h6 (by omega)⟩
    rw [backoff_secs, hmin, h64, Nat.min_eq_left hpow]
  · push_neg at h
    have hmin : min k 6 = 6 := Nat.min_eq_right (by omega)
    have hpow : 2 ^ 6 ≤ 2 ^ k := Nat.pow_le_pow_right (by norm_num) (by omega)
    refine ⟨?_, fun h6 => absurd h (by omega), fun _ => by rw [backoff_secs, hmin, h64]⟩
    rw [backoff_secs, hmin, h64, Nat.min_eq_right hpow]

/-- Witness for the backoff formula, at the failed attempt `k = 7`. -/
theorem backoff_formula_witness :
    1 ≤ 7 ∧ (backoff_secs 7 = min (2 ^ 7) 64 ∧
      (7 ≤ 6 → backoff_secs 7 = 2 ^ 7) ∧ (6 < 7 → backoff_secs 7 = 64)) :=
  ⟨by decide, backoff_formula 7 (by decide)⟩

/-- A comma split always yields at least one piece. -/
theorem splitComma_ne_nil (cs : List Char) : splitComma cs ≠ [] := by
  cases cs with
  | nil => simp [splitComma]
  | cons c cs =>
    simp only [splitComma]
    split
    · simp
    · split <;> simp

/-- A comma split yields one piece more than there are commas. -/
theorem splitComma_length (cs : List Char) :
    (splitComma cs).length = cs.count ',' + 1 := by
  induction cs with
  | nil => simp [splitComma]
  | cons c cs ih =>
    simp only [splitComma]
    by_cases hc : c = ','
    · simp [hc, List.count_cons, ih]
    · cases h2 : splitComma cs with
      | nil => exact absurd h2 (splitComma_ne_nil cs)
      | cons p ps =>
        rw [h2] at ih
        simp only [if_neg hc, h2, List.length_cons] at ih ⊢
        simp [List.count_cons, hc, ih]

/-- C10: with the variable unset the documented default list is returned
verbatim; with the variable set to `s` the result is the comma split of
`s` (one piece more than there are commas), each piece trimmed and
uppercased; in particular an empty value yields the one-element list
containing the empty symbol, not the default. -/
theorem symbols_from_env_spec (d : List String) :
    get_symbols_from_env none d = d ∧
    (∀ s : String, (get_symbols_from_env (some s) d).length = s.data.count ',' + 1) ∧
    get_symbols_from_env (some "") d = [""] ∧
    get_symbols_from_env (some "aapl,MSFT, googl ,  TSLA  ") d
      = ["AAPL", "MSFT", "GOOGL", "TSLA"] :=
  ⟨rfl,
   fun s => by simp [get_symbols_from_env, splitComma_length],
   by simp only [get_symbols_from_env]
      decide,
   by simp only [get_symbols_from_env]
      decide⟩

/-- C2: an inbound event with a trade / quote / bar tag whose payload
fails to decode produces zero events on the sink and the dispatcher
still returns `Ok` — the decode error never propagates to the caller. -/
theorem undecodable_payload_dropped (c : Codecs) (sink : Sink) (now : DateTime)
    (msg : StreamingMessage) :
    (msg.message_type = "t" → c.decodeTrade (c.toValue msg) = none →
      process_streaming_message c sink now msg = ([], Except.ok ())) ∧
    (msg.message_type = "q" → c.decodeQuote (c.toValue msg) = none →
      process_streaming_message c sink now msg = ([], Except.ok ())) ∧
    (msg.message_type = "b" → c.decodeBar (c.toValue msg) = none →
      process_streaming_message c sink now msg = ([], Except.ok ())) := by
  refine ⟨fun ht hd => ?_, fun ht hd => ?_, fun ht hd => ?_⟩ <;>
    simp [process_streaming_message, ht, handle_trade_message,
      handle_quote_message, handle_bar_message, hd]

/-- Witness for the undecodable-payload claim: a `q`-tagged message
whose quote decoder rejects it is dropped with `Ok`. -/
theorem undecodable_payload_dropped_witness :
    (StreamingMessage.mk "q" none Json.null).message_type = "q" ∧
    Codecs.decodeQuote ⟨fun m => m.data, fun _ => none, fun _ => none, fun _ => none⟩
      (Codecs.toValue ⟨fun m => m.data, fun _ => none, fun _ => none, fun _ => none⟩
        ⟨"q", none, Json.null⟩) = none ∧
    process_streaming_message ⟨fun m => m.data, fun _ => none, fun _ => none, fun _ => none⟩
      (fun _ => none) ⟨2024, 1, 15, 0, 0, 0, 0⟩ ⟨"q", none, Json.null⟩
      = ([], Except.ok ()) :=
  ⟨rfl, rfl,
   (undecodable_payload_dropped ⟨fun m => m.data, fun _ => none, fun _ => none, fun _ => none⟩
     (fun _ => none) ⟨2024, 1, 15, 0, 0, 0, 0⟩ ⟨"q", none, Json.null⟩).2.1 rfl rfl⟩

/-- Counterexample to C3 as stated: with a sink whose write fails, the
dispatcher does NOT return `Ok` — here an unrecognized-tag event whose
sink write fails makes `process_streaming_message` return the error. -/
theorem sink_error_not_absorbed :
    (process_streaming_message ⟨fun m => m.data, fun _ => none, fun _ => none, fun _ => none⟩
      (fun _ => some "sink write failed") ⟨2024, 1, 15, 0, 0, 0, 0⟩
      ⟨"weird", none, Json.null⟩).2 ≠ Except.ok () := by
  intro h
  exact Except.noConfusion h

/-- C3 amended: a sink write failure during dispatch is NOT absorbed —
whenever a handler reaches its `write_streaming_data` call (a decoded
trade / quote / bar, a success / subscription / error with a message, or
any unrecognized tag) and the write fails, the error propagates out of
`process_streaming_message` via the `?` operator. -/
theorem sink_error_propagates (c : Codecs) (sink : Sink) (e : String) (now : DateTime)
    (msg : StreamingMessage) (hsink : ∀ d, sink d = some e) :
    (msg.message_type ∉ (["t", "q", "b", "success", "subscription", "error"] : List String) →
      (process_streaming_message c sink now msg).2 = Except.error e) ∧
    (∀ tr, msg.message_type = "t" → c.decodeTrade (c.toValue msg) = some tr →
      (process_streaming_message c sink now msg).2 = Except.error e) ∧
    (∀ qt, msg.message_type = "q" → c.decodeQuote (c.toValue msg) = some qt →
      (process_streaming_message c sink now msg).2 = Except.error e) ∧
    (∀ br, msg.message_type = "b" → c.decodeBar (c.toValue msg) = some br →
      (process_streaming_message c sink now msg).2 = Except.error e) ∧
    (∀ m, msg.message_type ∈ (["success", "subscription", "error"] : List String) →
      msg.message = some m →
      (process_streaming_message c sink now msg).2 = Except.error e) := by
  refine ⟨fun hnot => ?_, fun tr ht hd => ?_, fun qt ht hd => ?_, fun br ht hd => ?_,
    fun m htag hm => ?_⟩
  · simp only [List.mem_cons, List.not_mem_nil, or_false, not_or] at hnot
    obtain ⟨h1, h2, h3, h4, h5, h6⟩ := hnot
    simp [process_streaming_message, h1, h2, h3, h4, h5, h6,
      handle_unknown_message, writeAttempt, hsink]
  · simp [process_streaming_message, ht, handle_trade_message, hd, writeAttempt, hsink]
  · simp [process_streaming_message, ht, handle_quote_message, hd, writeAttempt, hsink]
  · simp [process_streaming_message, ht, handle_bar_message, hd, writeAttempt, hsink]
  · simp only [List.mem_cons, List.not_mem_nil, or_false] at htag
    rcases htag with ht | ht | ht
    · simp [process_streaming_message, ht, handle_success_message, hm, writeAttempt, hsink]
    · simp [process_streaming_message, ht, handle_subscription_message, hm, writeAttempt, hsink]
    · simp [process_streaming_message, ht, handle_error_message, hm, writeAttempt, hsink]

/-- Witness for the amended sink-error claim: a failing sink makes the
dispatcher return the sink's error on an unrecognized tag. -/
theorem sink_error_propagates_witness :
    (∀ d, (fun (_ : StreamingData) => some "boom") d = some "boom") ∧
    (StreamingMessage.mk "weird" none Json.null).message_type
      ∉ (["t", "q", "b", "success", "subscription", "error"] : List String) ∧
    (process_streaming_message ⟨fun m => m.data, fun _ => none, fun _ => none, fun _ => none⟩
      (fun _ => some "boom") ⟨2024, 1, 15, 0, 0, 0, 0⟩
      ⟨"weird", none, Json.null⟩).2 = Except.error "boom" :=
  ⟨fun _ => rfl, by decide,
   (sink_error_propagates ⟨fun m => m.data, fun _ => none, fun _ => none, fun _ => none⟩
     (fun _ => some "boom") "boom" ⟨2024, 1, 15, 0, 0, 0, 0⟩
     ⟨"weird", none, Json.null⟩ (fun _ => rfl)).1 (by decide)⟩

/-- C1: with a healthy sink, every inbound event with a recognized tag
and a decodable payload (for success / subscription / error: a present
message field) yields exactly one normalized event on the sink, whose
symbol is the payload's symbol exactly for the trade / quote / bar tags
and absent for success / subscription / error and unrecognized tags;
moreover every emitted event has its symbol set iff the tag is
trade / quote / bar. -/
theorem dispatch_normalized_event (c : Codecs) (sink : Sink) (now : DateTime)
    (msg : StreamingMessage) (hsink : ∀ d, sink d = none) :
    (∀ tr, msg.message_type = "t" → c.decodeTrade (c.toValue msg) = some tr →
      process_streaming_message c sink now msg
        = ([⟨now, "t", some tr.symbol, c.toValue msg⟩], Except.ok ())) ∧
    (∀ qt, msg.message_type = "q" → c.decodeQuote (c.toValue msg) = some qt →
      process_streaming_message c sink now msg
        = ([⟨now, "q", some qt.symbol, c.toValue msg⟩], Except.ok ())) ∧
    (∀ br, msg.message_type = "b" → c.decodeBar (c.toValue msg) = some br →
      process_streaming_message c sink now msg
        = ([⟨now, "b", some br.symbol, c.toValue msg⟩], Except.ok ())) ∧
    (∀ m, msg.message_type ∈ (["success", "subscription", "error"] : List String) →
      msg.message = some m →
      process_streaming_message c sink now msg
        = ([⟨now, msg.message_type, none, Json.str m⟩], Except.ok ())) ∧
    (msg.message_type ∉ (["t", "q", "b", "success", "subscription", "error"] : List String) →
      process_streaming_message c sink now msg
        = ([⟨now, msg.message_type, none, msg.data⟩], Except.ok ())) ∧
    (∀ d ∈ (process_streaming_message c sink now msg).1,
      d.symbol.isSome = true ↔ msg.message_type ∈ (["t", "q", "b"] : List String)) := by
  refine ⟨fun tr ht hd => ?_, fun qt ht hd => ?_, fun br ht hd => ?_,
    fun m htag hm => ?_, fun hnot => ?_, fun d hd => ?_⟩
  · simp [process_streaming_message, ht, handle_trade_message, hd, writeAttempt, hsink]
  · simp [process_streaming_message, ht, handle_quote_message, hd, writeAttempt, hsink]
  · simp [process_streaming_message, ht, handle_bar_message, hd, writeAttempt, hsink]
  · simp only [List.mem_cons, List.not_mem_nil, or_false] at htag
    rcases htag with ht | ht | ht
    · simp [process_streaming_message, ht, handle_success_message, hm, writeAttempt, hsink]
    · simp [process_streaming_message, ht, handle_subscription_message, hm, writeAttempt, hsink]
    · simp [process_streaming_message, ht, handle_error_message, hm, writeAttempt, hsink]
  · simp only [List.mem_cons, List.not_mem_nil, or_false, not_or] at hnot
    obtain ⟨h1, h2, h3, h4, h5, h6⟩ := hnot
    simp [process_streaming_message, h1, h2, h3, h4, h5, h6,
      handle_unknown_message, writeAttempt, hsink]
  · simp only [process_streaming_message] at hd
    split_ifs at hd with h1 h2 h3 h4 h5 h6 <;>
      simp only [handle_trade_message, handle_quote_message, handle_bar_message,
        handle_success_message, handle_subscription_message, handle_error_message,
        handle_unknown_message, writeAttempt] at hd <;>
      (repeat' split at hd) <;>
      simp only [List.mem_singleton, List.not_mem_nil] at hd <;>
      first
        | exact absurd hd (by simp)
        | (subst hd
           simp_all)

/-- Witness for the dispatch claim: a decoded trade on an always-healthy
sink yields exactly the one `t` event carrying the trade's symbol. -/
theorem dispatch_normalized_event_witness :
    (∀ d, (fun (_ : StreamingData) => (none : Option String)) d = none) ∧
    (StreamingMessage.mk "t" none Json.null).message_type = "t" ∧
    Codecs.decodeTrade
      ⟨fun m => m.data, fun _ => some ⟨"AAPL"⟩, fun _ => none, fun _ => none⟩
      (Codecs.toValue ⟨fun m => m.data, fun _ => some ⟨"AAPL"⟩, fun _ => none, fun _ => none⟩
        ⟨"t", none, Json.null⟩) = some ⟨"AAPL"⟩ ∧
    process_streaming_message
      ⟨fun m => m.data, fun _ => some ⟨"AAPL"⟩, fun _ => none, fun _ => none⟩
      (fun _ => none) ⟨2024, 1, 15, 10, 0, 0, 0⟩ ⟨"t", none, Json.null⟩
      = ([⟨⟨2024, 1, 15, 10, 0, 0, 0⟩, "t", some "AAPL", Json.null⟩], Except.ok ()) :=
  ⟨fun _ => rfl, rfl, rfl,
   (dispatch_normalized_event
     ⟨fun m => m.data, fun _ => some ⟨"AAPL"⟩, fun _ => none, fun _ => none⟩
     (fun _ => none) ⟨2024, 1, 15, 10, 0, 0, 0⟩ ⟨"t", none, Json.null⟩
     (fun _ => rfl)).1 ⟨"AAPL"⟩ rfl rfl⟩

/-- C9: every event the dispatcher emits carries the dispatch-time clock
reading `now` as its timestamp — never anything taken from the payload —
so whenever two dispatches happen with ordered clock readings, all their
emitted timestamps are ordered the same way, whatever the payloads
contain. -/
theorem timestamp_assigned_at_dispatch (c : Codecs) (sink : Sink) (now : DateTime)
    (msg : StreamingMessage) :
    (∀ d ∈ (process_streaming_message c sink now msg).1, d.timestamp = now) ∧
    (∀ (c2 : Codecs) (sink2 : Sink) (now2 : DateTime) (msg2 : StreamingMessage),
      now.code ≤ now2.code →
      ∀ d1 ∈ (process_streaming_message c sink now msg).1,
      ∀ d2 ∈ (process_streaming_message c2 sink2 now2 msg2).1,
        d1.timestamp.code ≤ d2.timestamp.code) := by
  refine ⟨mem_dispatch_timestamp c sink now msg, ?_⟩
  intro c2 sink2 now2 msg2 h d1 hd1 d2 hd2
  rw [mem_dispatch_timestamp c sink now msg d1 hd1,
    mem_dispatch_timestamp c2 sink2 now2 msg2 d2 hd2]
  exact h

/-- Witness for the timestamp claim: an unknown-tag event emitted at a
concrete clock reading carries exactly that reading. -/
theorem timestamp_assigned_at_dispatch_witness :
    (⟨⟨2024, 1, 15, 10, 0, 0, 7⟩, "u", none, Json.null⟩ : StreamingData)
      ∈ (process_streaming_message
          ⟨fun m => m.data, fun _ => none, fun _ => none, fun _ => none⟩
          (fun _ => none) ⟨2024, 1, 15, 10, 0, 0, 7⟩ ⟨"u", none, Json.null⟩).1 ∧
    (⟨⟨2024, 1, 15, 10, 0, 0, 7⟩, "u", none, Json.null⟩ : StreamingData).timestamp
      = ⟨2024, 1, 15, 10, 0, 0, 7⟩ :=
  ⟨List.mem_singleton.mpr rfl,
   (timestamp_assigned_at_dispatch
     ⟨fun m => m.data, fun _ => none, fun _ => none, fun _ => none⟩
     (fun _ => none) ⟨2024, 1, 15, 10, 0, 0, 7⟩ ⟨"u", none, Json.null⟩).1
     ⟨⟨2024, 1, 15, 10, 0, 0, 7⟩, "u", none, Json.null⟩
     (List.mem_singleton.mpr rfl)⟩

/-- The fixed-layout timestamp always contains a space, so it can never
be the literal header field `timestamp`. -/
theorem format_timestamp_ne_header_field (t : DateTime) :
    format_timestamp t ≠ "timestamp" := by
  intro h
  have hsp : ' ' ∈ (format_timestamp t).data := by
    simp [format_timestamp, format_timestamp_chars]
  rw [h] at hsp
  exact absurd hsp (by decide)

/-- No data record written through the CSV record writer equals the
header record: its first field is a rendered timestamp, never the
literal `timestamp`. -/
theorem write_csv_record_ne_header (d : StreamingData) :
    write_csv_record d ≠ csv_header := by
  intro h
  simp only [write_csv_record, csv_header, List.cons.injEq] at h
  exact format_timestamp_ne_header_field d.timestamp h.1

/-- C6: over a CSV-format file sink's whole lifetime (construction plus
any sequence of accepted events) the header record
`timestamp,message_type,symbol,data` appears exactly once when the sink
was opened with `append = false` and zero times when `append = true`;
no event write ever produces the header again. -/
theorem csv_header_once (append : Bool) (ds : List StreamingData) :
    (file_csv_records append ds).count csv_header = if append then 0 else 1 := by
  have hz : (ds.map write_csv_record).count csv_header = 0 := by
    rw [List.count_eq_zero]
    intro h
    rcases List.mem_map.mp h with ⟨d, _, hd⟩
    exact write_csv_record_ne_header d hd
  cases append <;>
    simp [file_csv_records, create_file_mode_csv, List.count_append, hz]

/-- C8: on a CSV-format sink the console path emits one text line —
fixed-layout timestamp, tag, symbol-or-empty, and the payload re-encoded
with every embedded comma replaced by `;` — while the file path hands
the same three leading fields plus the payload text unmodified to the
CSV record writer; and the comma substitution indeed leaves no comma in
the console payload field. -/
theorem csv_console_file_asymmetry (pr : StreamingData → String) (d : StreamingData) :
    write_streaming_data pr (OutputModeM.console DataFormat.Csv) d
      = [Emitted.text (format_timestamp d.timestamp ++ "," ++ d.message_type ++ ","
          ++ d.symbol.getD "" ++ "," ++ replace_commas (renderJson d.data) ++ "\n")] ∧
    write_streaming_data pr (OutputModeM.file DataFormat.Csv) d
      = [Emitted.record [format_timestamp d.timestamp, d.message_type,
          d.symbol.getD "", renderJson d.data]] ∧
    (∀ s : String, ',' ∉ (replace_commas s).data) ∧
    (write_csv_record d).getD 3 "" = renderJson d.data := by
  refine ⟨rfl, rfl, fun s hc => ?_, rfl⟩
  rcases List.mem_map.mp hc with ⟨c, _, hcc⟩
  by_cases h : c = ',' <;> simp [h] at hcc

/-- One step of the supervisor loop: a clean session whose completion
write succeeds breaks out with exit status 0. -/
theorem supervisorLoop_step_clean_ok (runs wr : Nat → Option String) (m k : Nat)
    (h1 : runs k = none) (h2 : wr k = none) :
    supervisorLoop runs wr m k = ([], SessionExit.ok (k + 1)) := by
  rw [supervisorLoop]
  simp [h1, h2]

/-- One step of the supervisor loop: a clean session whose completion
write fails raises the write error out of `main`. -/
theorem supervisorLoop_step_clean_writefail (runs wr : Nat → Option String) (m k : Nat)
    (w : String) (h1 : runs k = none) (h2 : wr k = some w) :
    supervisorLoop runs wr m k = ([], SessionExit.err (k + 1) w) := by
  rw [supervisorLoop]
  simp [h1, h2]

/-- One step of the supervisor loop: a failed session at the retry
ceiling returns the session error (no write is attempted). -/
theorem supervisorLoop_step_ceiling (runs wr : Nat → Option String) (m k : Nat)
    (e : String) (h1 : runs k = some e) (h2 : m ≤ k + 1) :
    supervisorLoop runs wr m k = ([], SessionExit.err (k + 1) e) := by
  rw [supervisorLoop, h1]
  simp only [dif_pos h2]

/-- One step of the supervisor loop: a failed session below the ceiling
whose retry-message write fails raises the write error before the
sleep. -/
theorem supervisorLoop_step_retry_writefail (runs wr : Nat → Option String) (m k : Nat)
    (e w : String) (h1 : runs k = some e) (h2 : ¬ m ≤ k + 1) (h3 : wr k = some w) :
    supervisorLoop runs wr m k = ([], SessionExit.err (k + 1) w) := by
  rw [supervisorLoop, h1]
  simp only [dif_neg h2, h3]

/-- Running the supervisor loop across a prefix of retried failures
(each below the ceiling, each retry write succeeding) sleeps the
backoffs for attempts `j+1 … k` and continues from failure count `k`. -/
theorem supervisorLoop_skip_failures (runs wr : Nat → Option String) (m : Nat) :
    ∀ (dlt j k : Nat), k = j + dlt →
    (∀ i, j ≤ i → i < k → (runs i).isSome) →
    (∀ i, j ≤ i → i < k → wr i = none) →
    k < m →
    supervisorLoop runs wr m j
      = ((List.range' (j + 1) dlt).map backoff_secs ++ (supervisorLoop runs wr m k).1,
         (supervisorLoop runs wr m k).2) := by
  intro dlt
  induction dlt with
  | zero =>
    intro j k hk _ _ _
    subst hk
    simp [List.range']
  | succ dprev ih =>
    intro j k hk hruns hwr hkm
    have hj : (runs j).isSome := hruns j (Nat.le_refl j) (by omega)
    obtain ⟨e, he⟩ := Option.isSome_iff_exists.mp hj
    have hwj : wr j = none := hwr j (Nat.le_refl j) (by omega)
    have hnot : ¬ m ≤ j + 1 := by omega
    rw [supervisorLoop, he]
    simp only [dif_neg hnot, hwj]
    have hrest := ih (j + 1) k (by omega) (fun i hi1 hi2 => hruns i (by omega) hi2)
      (fun i hi1 hi2 => hwr i (by omega) hi2) hkm
    rw [hrest]
    simp [List.range']

/-- Counterexample to C5 as stated: the first session returns cleanly,
but the supervisor's own completion write
(`config.output_mode.writeln(...)?` before `break`) fails, so the
process exits non-zero after the clean session instead of stopping with
exit status 0. -/
theorem supervisor_clean_write_failure :
    supervisorLoop (fun _ => none) (fun _ => some "sink write failed") 5 0
      = ([], SessionExit.err 1 "sink write failed") ∧
    SessionExit.err 1 "sink write failed" ≠ SessionExit.ok 1 := by
  refine ⟨?_, ?_⟩
  · rw [supervisorLoop]
  · intro h
    exact SessionExit.noConfusion h

/-- C5 (amended): provided the supervisor's own progress writes to the
sink succeed, the loop runs session attempts until one returns cleanly —
stopping at once with exit status 0, the clean run not counting against
the ceiling — or until `max_retries` consecutive failures, stopping
with the last session error after exactly `max_retries` attempts; when
instead one of those `?`-propagated progress writes fails (after a
clean session, or before sleeping between retries), the loop stops at
once and exits non-zero surfacing the write error; after every one of
these outcomes no further attempt is made. -/
theorem supervisor_loop_contract (m : Nat) (runs wr : Nat → Option String)
    (hm : 1 ≤ m) :
    (∀ k, (∀ i, i < k → (runs i).isSome) → (∀ i, i ≤ k → wr i = none) →
      runs k = none → k < m →
      supervisorLoop runs wr m 0
        = ((List.range' 1 k).map backoff_secs, SessionExit.ok (k + 1))) ∧
    (∀ es : Nat → String, (∀ i, i < m → runs i = some (es i)) →
      (∀ i, i + 1 < m → wr i = none) →
      supervisorLoop runs wr m 0
        = ((List.range' 1 (m - 1)).map backoff_secs,
           SessionExit.err m (es (m - 1)))) ∧
    (∀ k w, (∀ i, i < k → (runs i).isSome) → (∀ i, i < k → wr i = none) →
      runs k = none → wr k = some w → k < m →
      supervisorLoop runs wr m 0
        = ((List.range' 1 k).map backoff_secs, SessionExit.err (k + 1) w)) ∧
    (∀ k e w, (∀ i, i < k → (runs i).isSome) → (∀ i, i < k → wr i = none) →
      runs k = some e → k + 1 < m → wr k = some w →
      supervisorLoop runs wr m 0
        = ((List.range' 1 k).map backoff_secs, SessionExit.err (k + 1) w)) := by
  refine ⟨fun k h1 h2 h3 h4 => ?_, fun es h1 h2 => ?_,
    fun k w h1 h2 h3 h4 h5 => ?_, fun k e w h1 h2 h3 h4 h5 => ?_⟩
  · rw [supervisorLoop_skip_failures runs wr m k 0 k (by omega) (fun i _ hi => h1 i hi)
      (fun i _ hi => h2 i (by omega)) h4,
      supervisorLoop_step_clean_ok runs wr m k h3 (h2 k (Nat.le_refl k))]
    simp
  · rw [supervisorLoop_skip_failures runs wr m (m - 1) 0 (m - 1) (by omega)
      (fun i _ hi => by simp [h1 i (by omega)])
      (fun i _ hi => h2 i (by omega)) (by omega),
      supervisorLoop_step_ceiling runs wr m (m - 1) (es (m - 1))
        (h1 (m - 1) (by omega)) (by omega)]
    have : m - 1 + 1 = m := by omega
    rw [this]
    simp
  · rw [supervisorLoop_skip_failures runs wr m k 0 k (by omega) (fun i _ hi => h1 i hi)
      (fun i _ hi => h2 i hi) h5,
      supervisorLoop_step_clean_writefail runs wr m k w h3 h4]
    simp
  · rw [supervisorLoop_skip_failures runs wr m k 0 k (by omega) (fun i _ hi => h1 i hi)
      (fun i _ hi => h2 i hi) (by omega),
      supervisorLoop_step_retry_writefail runs wr m k e w h3 (by omega) h5]
    simp

/-- Witness for the amended supervisor contract: with a ceiling of two,
every session failing with `boom` and every supervisor write
succeeding, the loop sleeps once (2 seconds) and exits with the last
session error after exactly two attempts. -/
theorem supervisor_loop_contract_witness :
    1 ≤ 2 ∧
    supervisorLoop (fun _ => some "boom") (fun _ => none) 2 0
      = ([2], SessionExit.err 2 "boom") :=
  ⟨by decide,
   (supervisor_loop_contract 2 (fun _ => some "boom") (fun _ => none) (by decide)).2.1
     (fun _ => "boom") (fun _ _ => rfl) (fun _ _ => rfl)⟩

/-- The digit character of `n` carries `n % 10` and is a digit. -/
theorem digitChar_spec (n : Nat) :
    (digitChar n).toNat = 48 + n % 10 ∧ isDig (digitChar n) = true := by
  have h : n % 10 < 10 := Nat.mod_lt _ (by norm_num)
  unfold digitChar isDig
  generalize n % 10 = k at h ⊢
  interval_cases k <;> exact ⟨by decide, by decide⟩

/-- A decimal rendering is never empty. -/
theorem natChars_ne_nil (n : Nat) : natChars n ≠ [] := by
  rw [natChars]
  split <;> simp

/-- Every character of a decimal rendering is a digit. -/
theorem natChars_digits (n : Nat) : ∀ c ∈ natChars n, isDig c = true := by
  induction n using Nat.strong_induction_on with
  | _ n ih =>
    rw [natChars]
    split
    · intro c hc
      rw [List.mem_singleton] at hc
      subst hc
      exact (digitChar_spec n).2
    · intro c hc
      rcases List.mem_append.mp hc with h | h
      · exact ih (n / 10) (by omega) c h
      · rw [List.mem_singleton] at h
        subst h
        exact (digitChar_spec n).2

/-- A decimal rendering starts with a digit character. -/
theorem natChars_cons (n : Nat) :
    ∃ c t, natChars n = c :: t ∧ isDig c = true := by
  cases h : natChars n with
  | nil => exact absurd h (natChars_ne_nil n)
  | cons c t =>
    exact ⟨c, t, rfl, natChars_digits n c (h ▸ List.mem_cons_self c t)⟩

/-- Reading the digits of a decimal rendering recovers the number. -/
theorem digitsNat_natChars (n : Nat) : digitsNat (natChars n) = n := by
  induction n using Nat.strong_induction_on with
  | _ n ih =>
    rw [natChars]
    split
    · rename_i h
      simp only [digitsNat, List.foldl_cons, List.foldl_nil, digitVal,
        (digitChar_spec n).1]
      omega
    · rename_i h
      simp only [digitsNat, List.foldl_append, List.foldl_cons, List.foldl_nil]
      have hrec : digitsNat (natChars (n / 10)) = n / 10 := ih (n / 10) (by omega)
      simp only [digitsNat] at hrec
      rw [hrec, digitVal, (digitChar_spec n).1]
      omega

/-- A digit character is none of the characters the grammar treats
specially. -/
theorem isDig_ne (c : Char) (h : isDig c = true) :
    c ≠ 'n' ∧ c ≠ 't' ∧ c ≠ 'f' ∧ c ≠ '"' ∧ c ≠ '[' ∧ c ≠ '{' ∧ c ≠ '-' ∧
    c ≠ ']' ∧ c ≠ '}' ∧ c ≠ ',' := by
  refine ⟨?_, ?_, ?_, ?_, ?_, ?_, ?_, ?_, ?_, ?_⟩ <;>
    (intro hc; subst hc; exact absurd h (by decide))

/-- `grabDigits` takes nothing off a delimited remainder. -/
theorem grabDigits_stop (cs : List Char) (h : numDelim cs = true) :
    grabDigits cs = ([], cs) := by
  cases cs with
  | nil => rfl
  | cons c t =>
    simp only [numDelim, Bool.not_eq_true'] at h
    simp [grabDigits, h]

/-- `grabDigits` takes exactly a leading digit run off the input. -/
theorem grabDigits_run (ds : List Char) (hds : ∀ c ∈ ds, isDig c = true)
    (rest : List Char) (hrest : grabDigits rest = ([], rest)) :
    grabDigits (ds ++ rest) = (ds, rest) := by
  induction ds with
  | nil => simpa using hrest
  | cons c t ih =>
    have hc : isDig c = true := hds c (List.mem_cons_self c t)
    have ht := ih (fun x hx => hds x (List.mem_cons_of_mem c hx))
    simp [grabDigits, hc, ht]

/-- Parsing a rendered integer recovers it whenever the remainder cannot
extend the number. -/
theorem parseInt_render (i : Int) (rest : List Char) (hr : numDelim rest = true) :
    parseInt (intChars i ++ rest) = some (i, rest) := by
  by_cases hi : i < 0
  · have harg : intChars i ++ rest = '-' :: (natChars i.natAbs ++ rest) := by
      simp [intChars, hi]
    rw [harg]
    simp only [parseInt]
    rw [grabDigits_run _ (natChars_digits _) _ (grabDigits_stop _ hr)]
    have hne : (natChars i.natAbs).isEmpty = false := by
      cases h : natChars i.natAbs with
      | nil => exact absurd h (natChars_ne_nil _)
      | cons c t => rfl
    simp only [hne, Bool.false_eq_true, if_false, digitsNat_natChars]
    have : -(i.natAbs : Int) = i := by omega
    rw [this]
  · obtain ⟨c0, t0, h0, hdig⟩ := natChars_cons i.natAbs
    obtain ⟨-, -, -, -, -, -, hminus, -, -, -⟩ := isDig_ne c0 hdig
    have harg : intChars i ++ rest = c0 :: (t0 ++ rest) := by
      simp [intChars, hi, h0]
    rw [harg]
    have hgrab : grabDigits (c0 :: (t0 ++ rest)) = (c0 :: t0, rest) := by
      have := grabDigits_run _ (natChars_digits i.natAbs) _ (grabDigits_stop _ hr)
      rwa [h0, List.cons_append] at this
    have hval : digitsNat (c0 :: t0) = i.natAbs := by
      have := digitsNat_natChars i.natAbs
      rwa [h0] at this
    simp only [parseInt]
    split
    · rename_i heq
      rw [List.cons.injEq] at heq
      exact absurd heq.1 hminus
    · simp only [hgrab, List.isEmpty_cons, Bool.false_eq_true, if_false, hval]
      have : (i.natAbs : Int) = i := by omega
      rw [this]

/-- The hexadecimal digit character of `k < 16` reads back as `k`. -/
theorem hexVal_hexDigitChar (k : Nat) (h : k < 16) :
    hexVal (hexDigitChar k) = some k := by
  unfold hexVal hexDigitChar
  interval_cases k <;> decide

/-- Reading a `\uXXXX` escape yields the encoded character. -/
theorem readStr_hex (a b c d : Char) (va vb vc vd : Nat) (t : List Char)
    (ha : hexVal a = some va) (hb : hexVal b = some vb)
    (hc : hexVal c = some vc) (hd : hexVal d = some vd) :
    readStr ('\\' :: 'u' :: a :: b :: c :: d :: t)
      = (readStr t).map
          (fun p => (Char.ofNat (((va * 16 + vb) * 16 + vc) * 16 + vd) :: p.1, p.2)) := by
  simp only [readStr, ha, hb, hc, hd]

/-- Reading one escaped character undoes the escaping and continues. -/
theorem readStr_escape (c : Char) (t : List Char) :
    readStr (escChar c ++ t) = (readStr t).map (fun p => (c :: p.1, p.2)) := by
  by_cases h1 : c = '"'
  · subst h1; rfl
  by_cases h2 : c = '\\'
  · subst h2; rfl
  by_cases h3 : c = Char.ofNat 8
  · subst h3; rfl
  by_cases h4 : c = '\t'
  · subst h4; rfl
  by_cases h5 : c = '\n'
  · subst h5; rfl
  by_cases h6 : c = Char.ofNat 12
  · subst h6; rfl
  by_cases h7 : c = '\r'
  · subst h7; rfl
  by_cases h8 : c.toNat < 32
  · have hesc : escChar c ++ t
        = '\\' :: 'u' :: '0' :: '0' :: hexDigitChar (c.toNat / 16)
            :: hexDigitChar (c.toNat % 16) :: t := by
      simp [escChar, h1, h2, h3, h4, h5, h6, h7, h8]
    rw [hesc, readStr_hex '0' '0' (hexDigitChar (c.toNat / 16)) (hexDigitChar (c.toNat % 16))
      0 0 (c.toNat / 16) (c.toNat % 16) t (by decide) (by decide)
      (hexVal_hexDigitChar _ (by omega))
      (hexVal_hexDigitChar _ (Nat.mod_lt _ (by norm_num)))]
    have harith : ((0 * 16 + 0) * 16 + c.toNat / 16) * 16 + c.toNat % 16 = c.toNat := by
      omega
    rw [harith, Char.ofNat_toNat]
  · have hesc : escChar c ++ t = c :: t := by
      simp [escChar, h1, h2, h3, h4, h5, h6, h7, h8]
    rw [hesc, readStr.eq_def]
    split
    · rename_i heq
      rw [List.cons.injEq] at heq
      exact absurd heq.1 h1
    · rename_i a b cc dd rest heq
      rw [List.cons.injEq] at heq
      exact absurd heq.1 h2
    · rename_i e rest heq
      rw [List.cons.injEq] at heq
      exact absurd heq.1 h2
    · rename_i c2 rest heq h
      rw [List.cons.injEq] at h
      obtain ⟨rfl, rfl⟩ := h
      rfl
    · rename_i heq
      exact absurd heq (by simp)

/-- Reading an escaped body stops exactly at the closing quote and
recovers the original characters. -/
theorem readStr_escList (cs : List Char) : ∀ t : List Char,
    readStr (escList cs ++ '"' :: t) = some (cs, t) := by
  induction cs with
  | nil => intro t; rfl
  | cons c cs ih =>
    intro t
    rw [escList, List.append_assoc, readStr_escape, ih]
    rfl

/-- Every rendered value is nonempty, and its first character closes no
bracket (in particular it is not `]`). -/
theorem renderJ_head (j : Json) :
    ∃ c t, renderJ j = c :: t ∧ c ≠ ']' := by
  cases j with
  | null => exact ⟨'n', _, rfl, by decide⟩
  | bool b => cases b with
    | true => exact ⟨'t', _, rfl, by decide⟩
    | false => exact ⟨'f', _, rfl, by decide⟩
  | str s => exact ⟨'"', _, rfl, by decide⟩
  | arr es => exact ⟨'[', _, rfl, by decide⟩
  | obj fs => exact ⟨'{', _, rfl, by decide⟩
  | num i =>
    by_cases hi : i < 0
    · refine ⟨'-', natChars i.natAbs, ?_, by decide⟩
      simp [renderJ, intChars, hi]
    · obtain ⟨c0, t0, h0, hdig⟩ := natChars_cons i.natAbs
      obtain ⟨-, -, -, -, -, -, -, hbr, -, -⟩ := isDig_ne c0 hdig
      refine ⟨c0, t0, ?_, hbr⟩
      simp [renderJ, intChars, hi, h0]

/-- A rendered value has at least one character. -/
theorem renderJ_length_pos (j : Json) : 1 ≤ (renderJ j).length := by
  obtain ⟨c, t, h, -⟩ := renderJ_head j
  simp [h]

/-- Parsing a rendered integer as a value recovers it (the integer
branch of the value parser). -/
theorem parseJ_num (fuel : Nat) (i : Int) (rest : List Char)
    (hr : numDelim rest = true) :
    parseJ (fuel + 1) (intChars i ++ rest) = some (Json.num i, rest) := by
  by_cases hi : i < 0
  · have harg : intChars i ++ rest = '-' :: (natChars i.natAbs ++ rest) := by
      simp [intChars, hi]
    rw [harg]
    simp only [parseJ]
    rw [if_neg (by decide), if_neg (by decide), if_neg (by decide), if_neg (by decide),
      if_neg (by decide), if_neg (by decide)]
    rw [show ('-' :: (natChars i.natAbs ++ rest)) = intChars i ++ rest from harg.symm,
      parseInt_render i rest hr]
    rfl
  · obtain ⟨c0, t0, h0, hdig⟩ := natChars_cons i.natAbs
    obtain ⟨hn, ht, hf, hq, hbk, hbc, -, -, -, -⟩ := isDig_ne c0 hdig
    have harg : intChars i ++ rest = c0 :: (t0 ++ rest) := by
      simp [intChars, hi, h0]
    rw [harg]
    simp only [parseJ]
    rw [if_neg hn, if_neg ht, if_neg hf, if_neg hq, if_neg hbk, if_neg hbc]
    rw [show (c0 :: (t0 ++ rest)) = intChars i ++ rest from harg.symm,
      parseInt_render i rest hr]
    rfl

/-- Parsing a rendered string as a value recovers it (the string branch
of the value parser). -/
theorem parseJ_str (fuel : Nat) (s : String) (rest : List Char) :
    parseJ (fuel + 1) (strChars s ++ rest) = some (Json.str s, rest) := by
  have harg : strChars s ++ rest = '"' :: (escList s.data ++ '"' :: rest) := by
    simp [strChars]
  rw [harg]
  simp only [parseJ]
  rw [if_neg (by decide), if_neg (by decide), if_neg (by decide), if_pos trivial,
    readStr_escList]
  rfl

/-- The value parser on `[` followed by a nonempty element list defers
to the element parser (the list's first character is never `]`). -/
theorem parseJ_arr_cons (fuel : Nat) (e : Json) (es : List Json) (rest : List Char) :
    parseJ (fuel + 1) (renderJ (Json.arr (e :: es)) ++ rest)
      = (parseArr fuel (renderArr (e :: es) ++ ']' :: rest)).map
          (fun p => (Json.arr p.1, p.2)) := by
  obtain ⟨c0, t0, h0, hbr⟩ := renderJ_head e
  have harg : renderJ (Json.arr (e :: es)) ++ rest
      = '[' :: (renderArr (e :: es) ++ ']' :: rest) := by
    simp [renderJ]
  rw [harg]
  simp only [parseJ]
  rw [if_neg (by decide), if_neg (by decide), if_neg (by decide), if_neg (by decide),
    if_pos trivial]
  have hshape : renderArr (e :: es) ++ ']' :: rest = c0 :: (t0 ++ renderArrRest es ++ ']' :: rest) := by
    simp [renderArr, h0]
  rw [hshape]
  split
  · rename_i heq
    rw [List.cons.injEq] at heq
    exact absurd heq.1 hbr
  · rw [← hshape]

/-- The value parser on `{` followed by a nonempty field list defers to
the field parser (the field list starts with the key's quote). -/
theorem parseJ_obj_cons (fuel : Nat) (k : String) (v : Json)
    (fs : List (String × Json)) (rest : List Char) :
    parseJ (fuel + 1) (renderJ (Json.obj ((k, v) :: fs)) ++ rest)
      = (parseObj fuel (renderObj ((k, v) :: fs) ++ '}' :: rest)).map
          (fun p => (Json.obj p.1, p.2)) := by
  have harg : renderJ (Json.obj ((k, v) :: fs)) ++ rest
      = '{' :: (renderObj ((k, v) :: fs) ++ '}' :: rest) := by
    simp [renderJ]
  rw [harg]
  simp only [parseJ]
  rw [if_neg (by decide), if_neg (by decide), if_neg (by decide), if_neg (by decide),
    if_neg (by decide), if_pos trivial]
  have hshape : renderObj ((k, v) :: fs) ++ '}' :: rest
      = '"' :: (escList k.data ++ ['"'] ++ (':' :: (renderJ v ++ renderObjRest fs) ++ '}' :: rest)) := by
    simp [renderObj, strChars]
  rw [hshape]
  split
  · rename_i heq
    rw [List.cons.injEq] at heq
    exact absurd heq.1 (by decide)
  · rw [← hshape]

/-- Round-trip of the JSON codec, by induction on the parser fuel: with
enough fuel, parsing a rendered value (followed by any remainder that
cannot extend a number) consumes exactly the rendering; similarly for
nonempty element and field lists up to their closing bracket. -/
theorem parse_render_aux : ∀ fuel : Nat,
    (∀ j rest, (renderJ j).length < fuel → numDelim rest = true →
      parseJ fuel (renderJ j ++ rest) = some (j, rest)) ∧
    (∀ e es rest, (renderArr (e :: es)).length + 1 < fuel →
      parseArr fuel (renderArr (e :: es) ++ ']' :: rest) = some (e :: es, rest)) ∧
    (∀ k v fs rest, (renderObj ((k, v) :: fs)).length + 1 < fuel →
      parseObj fuel (renderObj ((k, v) :: fs) ++ '}' :: rest) = some ((k, v) :: fs, rest)) := by
  intro fuel
  induction fuel with
  | zero =>
    exact ⟨fun j rest h _ => absurd h (by omega),
      fun e es rest h => absurd h (by omega),
      fun k v fs rest h => absurd h (by omega)⟩
  | succ f ih =>
    obtain ⟨hJ, hA, hO⟩ := ih
    refine ⟨?_, ?_, ?_⟩
    · intro j rest hlen hr
      cases j with
      | null => simp [renderJ, parseJ, stripLit]
      | bool b => cases b <;> simp [renderJ, parseJ, stripLit]
      | num i =>
        have hren : renderJ (Json.num i) = intChars i := by simp [renderJ]
        rw [hren, parseJ_num f i rest hr]
      | str s =>
        have hren : renderJ (Json.str s) = strChars s := by simp [renderJ]
        rw [hren, parseJ_str f s rest]
      | arr es0 =>
        cases es0 with
        | nil => simp [renderJ, renderArr, parseJ]
        | cons e es =>
          rw [parseJ_arr_cons f e es rest]
          have hlen2 : (renderArr (e :: es)).length + 1 < f := by
            have hrl : renderJ (Json.arr (e :: es))
                = '[' :: (renderArr (e :: es) ++ [']']) := by simp [renderJ]
            rw [hrl] at hlen
            simp only [List.length_cons, List.length_append, List.length_singleton] at hlen
            omega
          rw [hA e es rest hlen2]
          rfl
      | obj fs0 =>
        cases fs0 with
        | nil => simp [renderJ, renderObj, parseJ]
        | cons kv fs =>
          obtain ⟨k, v⟩ := kv
          rw [parseJ_obj_cons f k v fs rest]
          have hlen2 : (renderObj ((k, v) :: fs)).length + 1 < f := by
            have hrl : renderJ (Json.obj ((k, v) :: fs))
                = '{' :: (renderObj ((k, v) :: fs) ++ ['}']) := by simp [renderJ]
            rw [hrl] at hlen
            simp only [List.length_cons, List.length_append, List.length_singleton] at hlen
            omega
          rw [hO k v fs rest hlen2]
          rfl
    · intro e es rest hlen
      cases es with
      | nil =>
        have hren : renderArr (e :: ([] : List Json)) = renderJ e := by
          simp [renderArr, renderArrRest]
        rw [hren] at hlen ⊢
        simp only [parseArr]
        rw [hJ e (']' :: rest) (by omega) rfl]
        rfl
      | cons x xs =>
        have hren : renderArr (e :: x :: xs) = renderJ e ++ ',' :: renderArr (x :: xs) := by
          simp [renderArr, renderArrRest]
        rw [hren] at hlen ⊢
        rw [List.append_assoc, List.cons_append]
        simp only [parseArr]
        have hex : 1 ≤ (renderJ x).length := renderJ_length_pos x
        have h1 : (renderJ e).length < f := by
          simp only [List.length_append, List.length_cons] at hlen
          omega
        have h2 : (renderArr (x :: xs)).length + 1 < f := by
          have he1 : 1 ≤ (renderJ e).length := renderJ_length_pos e
          simp only [List.length_append, List.length_cons] at hlen
          omega
        rw [hJ e (',' :: (renderArr (x :: xs) ++ ']' :: rest)) h1 rfl]
        show (parseArr f (renderArr (x :: xs) ++ ']' :: rest)).map
          (fun p => (e :: p.1, p.2)) = some (e :: x :: xs, rest)
        rw [hA x xs rest h2]
        rfl
    · intro k v fs rest hlen
      have hshape : renderObj ((k, v) :: fs) ++ '}' :: rest
          = '"' :: (escList k.data ++ '"' ::
              (':' :: (renderJ v ++ (renderObjRest fs ++ '}' :: rest)))) := by
        simp [renderObj, strChars]
      have hlenO : (escList k.data).length + 2 + 1 + (renderJ v).length
          + (renderObjRest fs).length + 1 < f + 1 := by
        have : (renderObj ((k, v) :: fs)).length
            = (escList k.data).length + 2 + 1 + (renderJ v).length
              + (renderObjRest fs).length := by
          simp [renderObj, strChars]
          omega
        omega
      rw [hshape]
      simp only [parseObj]
      rw [readStr_escList]
      cases fs with
      | nil =>
        have hrr : renderObjRest ([] : List (String × Json)) = [] := by
          simp [renderObjRest]
        rw [hrr] at hlenO ⊢
        rw [List.nil_append]
        have h1 : (renderJ v).length < f := by
          simp only [List.length_nil] at hlenO
          omega
        show (match parseJ f (renderJ v ++ '}' :: rest) with
          | none => none
          | some (v2, r3) =>
            match r3 with
            | '}' :: r4 => some ([(String.mk k.data, v2)], r4)
            | ',' :: r4 => (parseObj f r4).map (fun p => ((String.mk k.data, v2) :: p.1, p.2))
            | _ => none) = some ([(k, v)], rest)
        rw [hJ v ('}' :: rest) h1 rfl]
        rfl
      | cons kv2 fs2 =>
        obtain ⟨k2, v2⟩ := kv2
        have hrr : renderObjRest ((k2, v2) :: fs2) = ',' :: renderObj ((k2, v2) :: fs2) := by
          simp [renderObj, renderObjRest]
        rw [hrr] at hlenO ⊢
        have hst : 2 ≤ (renderObj ((k2, v2) :: fs2)).length := by
          simp [renderObj, strChars]
          omega
        have h1 : (renderJ v).length < f := by
          simp only [List.length_cons] at hlenO
          omega
        have h2 : (renderObj ((k2, v2) :: fs2)).length + 1 < f := by
          have hv1 : 1 ≤ (renderJ v).length := renderJ_length_pos v
          simp only [List.length_cons] at hlenO
          omega
        rw [List.cons_append]
        show (match parseJ f (renderJ v ++ ',' :: (renderObj ((k2, v2) :: fs2) ++ '}' :: rest)) with
          | none => none
          | some (v3, r3) =>
            match r3 with
            | '}' :: r4 => some ([(String.mk k.data, v3)], r4)
            | ',' :: r4 => (parseObj f r4).map (fun p => ((String.mk k.data, v3) :: p.1, p.2))
            | _ => none) = some ((k, v) :: (k2, v2) :: fs2, rest)
        rw [hJ v (',' :: (renderObj ((k2, v2) :: fs2) ++ '}' :: rest)) h1 rfl]
        show (parseObj f (renderObj ((k2, v2) :: fs2) ++ '}' :: rest)).map
          (fun p => ((String.mk k.data, v) :: p.1, p.2)) = some ((k, v) :: (k2, v2) :: fs2, rest)
        rw [hO k2 v2 fs2 rest h2]
        rfl

/-- Parsing the compact rendering of any JSON value recovers the value
exactly. -/
theorem parse_render (j : Json) : parseJson (renderJson j) = some j := by
  have h := (parse_render_aux ((renderJ j).length + 1)).1 j [] (by omega) rfl
  rw [List.append_nil] at h
  simp [parseJson, renderJson, h]

/-- C7: a JSON-format sink (console or file) writes the event as exactly
one serialized line, and parsing that line back yields a JSON value that
deserializes to the same `symbol` and the same `data` payload as the
original event. -/
theorem json_sink_roundtrip (pr : StreamingData → String) (d : StreamingData) :
    write_streaming_data pr (OutputModeM.console DataFormat.Json) d
      = [Emitted.text (renderJson (streamingDataToJson d) ++ "\n")] ∧
    write_streaming_data pr (OutputModeM.file DataFormat.Json) d
      = [Emitted.text (renderJson (streamingDataToJson d) ++ "\n")] ∧
    parseJson (renderJson (streamingDataToJson d)) = some (streamingDataToJson d) ∧
    decode_symbol_data (streamingDataToJson d) = some (d.symbol, d.data) := by
  obtain ⟨ts, mt, sym, payload⟩ := d
  refine ⟨rfl, rfl, parse_render _, ?_⟩
  cases sym <;> rfl
